import Mathlib

/-!
Verification of the substitute-synthesis and palette-consistency engine of the
BrickitV2 repository (files `generate_with_substitutes.py` and
`create_universal_palette.py`).  The Python functions are shallowly embedded as
executable Lean definitions: Python's string operations are modelled by
structural functions on character lists, Python's stable `list.sort` by a
stable insertion sort (any stable sort by the same key computes the same
function), Python's arbitrary-precision integers by `Int`, and the decimal
price amounts by exact scaled decimals `num × 10^(-exp)`.
-/

/-! ## Generic helpers: Python string and list semantics -/

/-- Stable insertion of `x` into a list: `x` is placed before the first
element `y` with `le x y`, so elements equal under the key keep their
original relative order. -/
def insert_stable (le : α → α → Bool) (x : α) : List α → List α
  | [] => [x]
  | y :: ys => if le x y then x :: y :: ys else y :: insert_stable le x ys

/-- Stable sort, modelling Python's stable `list.sort` / `sorted`.  For a
total boolean preorder `le`, this computes the same list as any stable sort
with the same key. -/
def stable_sort (le : α → α → Bool) : List α → List α
  | [] => []
  | x :: xs => insert_stable le x (stable_sort le xs)

/-- Accumulator pass behind `py_split_whitespace`; `acc` holds the current
token reversed. -/
def split_ws_aux : List Char → List Char → List (List Char)
  | [], acc => if acc.isEmpty then [] else [acc.reverse]
  | c :: rest, acc =>
    if c.isWhitespace then
      if acc.isEmpty then split_ws_aux rest []
      else acc.reverse :: split_ws_aux rest []
    else split_ws_aux rest (c :: acc)

/-- Python's `str.split()` with no separator: splits on runs of whitespace and
never yields empty tokens. -/
def py_split_whitespace (s : String) : List String :=
  (split_ws_aux s.data []).map String.mk

/-- Accumulator pass behind `py_split_char`. -/
def split_char_aux (sep : Char) : List Char → List Char → List (List Char)
  | [], acc => [acc.reverse]
  | c :: rest, acc =>
    if c = sep then acc.reverse :: split_char_aux sep rest []
    else split_char_aux sep rest (c :: acc)

/-- Python's `str.split(sep)` for a one-character separator (the source only
splits on `"X"`): empty pieces are kept. -/
def py_split_char (s : String) (sep : Char) : List String :=
  (split_char_aux sep s.data []).map String.mk

/-- Digit-accumulating pass behind `py_int?`. -/
def digits_aux : List Char → Nat → Option Nat
  | [], acc => some acc
  | c :: rest, acc =>
    if c.isDigit then digits_aux rest (acc * 10 + (c.toNat - 48)) else none

/-- Python's `int(str)` on the tokens the source feeds it: an optional sign
followed by one or more ASCII decimal digits.  (Python additionally accepts
surrounding whitespace, `_` digit grouping and non-ASCII digits; the tokens
here come out of a whitespace split, and those extensions are not modelled.) -/
def py_int? (s : String) : Option Int :=
  match s.data with
  | [] => none
  | '-' :: rest =>
    if rest.isEmpty then none else (digits_aux rest 0).map (fun n => -(n : Int))
  | '+' :: rest =>
    if rest.isEmpty then none else (digits_aux rest 0).map (fun n => (n : Int))
  | l => (digits_aux l 0).map (fun n => (n : Int))

/-- Lexicographic comparison of character lists by code point, the order
Python uses to compare `str` values. -/
def chars_le : List Char → List Char → Bool
  | [], _ => true
  | _ :: _, [] => false
  | a :: xs, b :: ys => if a < b then true else if b < a then false else chars_le xs ys

/-- Python's `s1 <= s2` on strings. -/
def str_le (a b : String) : Bool := chars_le a.data b.data

/-- First-occurrence deduplication with an explicit `seen` accumulator,
modelling the iteration-order-independent content of a Python `set`. -/
def dedup_aux [DecidableEq α] : List α → List α → List α
  | [], _ => []
  | x :: xs, seen =>
    if x ∈ seen then dedup_aux xs seen else x :: dedup_aux xs (x :: seen)

/-- Distinct elements of a list, first occurrences kept. -/
def dedup [DecidableEq α] (l : List α) : List α := dedup_aux l []

/-! ## Exact decimal amounts

Prices in the catalog are decimal amounts; they are modelled exactly as
`num × 10^(-exp)`.  The engine only ever adds prices, multiplies them by
integer quantities and rounds to two decimal places, so decimals are closed
under every operation it performs. -/

/-- An exact decimal number `num × 10^(-exp)`. -/
structure Dec where
  num : Int
  exp : Nat
deriving Repr, DecidableEq

/-- Zero, the starting value of the Python price accumulator. -/
def Dec.zero : Dec := ⟨0, 0⟩

/-- Addition of decimals (denominators are multiplied, no normalisation). -/
def Dec.add (a b : Dec) : Dec :=
  ⟨a.num * (10 : Int) ^ b.exp + b.num * (10 : Int) ^ a.exp, a.exp + b.exp⟩

/-- Multiplication of a decimal by an integer quantity. -/
def Dec.mulInt (a : Dec) (k : Int) : Dec := ⟨a.num * k, a.exp⟩

/-- Value equality of decimals (the representation is not canonical). -/
def Dec.equiv (a b : Dec) : Prop :=
  a.num * (10 : Int) ^ b.exp = b.num * (10 : Int) ^ a.exp

instance Dec.decEquiv (a b : Dec) : Decidable (Dec.equiv a b) :=
  inferInstanceAs (Decidable (a.num * (10 : Int) ^ b.exp = b.num * (10 : Int) ^ a.exp))

/-- Round-half-to-even of the fraction `a / b` for `b > 0`, the tie rule of
Python's `round`. -/
def round_half_even_div (a b : Int) : Int :=
  let q := a / b
  let r := a % b
  if 2 * r < b then q
  else if b < 2 * r then q + 1
  else if q % 2 = 0 then q else q + 1

/-- Python's `round(x, 2)` on an exact decimal: round half to even at two
decimal places.  (On binary floats Python rounds the nearest double; on the
exact decimal values modelled here that is round-half-to-even.) -/
def Dec.round2 (d : Dec) : Dec :=
  ⟨round_half_even_div (d.num * 100) ((10 : Int) ^ d.exp), 2⟩

/-! ## Data model (schema of the catalog documents, spec section 6) -/

/-- One line of a substitute composition: `{brick_type, element_id, quantity}`
as emitted by `find_efficient_substitute`. -/
structure SubEntry where
  brick_type : String
  element_id : Option String
  quantity : Int
deriving Repr, DecidableEq

/-- One color variant of a piece type, direct (`is_substitute = false`) or
synthesized. -/
structure ColorData where
  color_name : String
  element_id : Option String := none
  rgb : Option String := none
  price : Option Dec := none
  is_substitute : Bool := false
  substitutes : List SubEntry := []
deriving Repr, DecidableEq

/-- One record of the catalog documents consumed and produced by the engine. -/
structure RawBrick where
  element_id : String
  brick_type : String
  num_colors : Nat
  colors : List ColorData
deriving Repr, DecidableEq

/-- The `brick_info` dictionary built by `generate_with_substitutes` for every
parsed catalog record. -/
structure BrickInfo where
  element_id : String
  brick_type : String
  type_name : String
  width : Int
  length : Int
  size : Int
  colors_data : List ColorData
  num_colors : Nat
deriving Repr, DecidableEq

/-- The candidate dictionary built inside `find_efficient_substitute`. -/
structure Candidate where
  brick_type : String
  width : Int
  length : Int
  size : Int
  color_data : ColorData
deriving Repr, DecidableEq

/-! ## Catalog model: `parse_brick_type` and `calculate_size` -/

/-- Embedding of `parse_brick_type` (identical in both source files): split
the label on whitespace, take the first token as the family, split the second
token on `"X"` and parse its first two pieces as integers.  Every Python
`IndexError` / `ValueError` becomes `none`.  Note the source never checks for
surplus whitespace tokens or surplus `"X"` pieces: they are ignored. -/
def parse_brick_type (brick_type : String) : Option (String × Int × Int) :=
  match py_split_whitespace brick_type with
  | [] => none
  | [_] => none
  | type_name :: dims :: _ =>
    match py_split_char dims 'X' with
    | [] => none
    | [_] => none
    | d0 :: d1 :: _ =>
      match py_int? d0, py_int? d1 with
      | some w, some l => some (type_name, w, l)
      | _, _ => none

/-- Embedding of `calculate_size`. -/
def calculate_size (width length : Int) : Int := width * length

/-! ## Substitute Synthesizer: `find_efficient_substitute` -/

/-- Candidate construction of `find_efficient_substitute` lines 48-60: keep
every available piece whose `size` is strictly below the target area and that
carries the requested color; the fit against the target width and length is
NOT checked here (it happens inside the greedy loop). -/
def build_candidates (target_width target_length : Int)
    (available_pieces : List BrickInfo) (color_name : String) : List Candidate :=
  available_pieces.filterMap fun piece =>
    if piece.size < target_width * target_length then
      (piece.colors_data.find? (fun c => c.color_name == color_name)).map fun cd =>
        { brick_type := piece.brick_type, width := piece.width,
          length := piece.length, size := piece.size, color_data := cd }
    else none

/-- Fuel-bounded embedding of the `while temp_remaining >= size` counting loop
(lines 84-88).  The source loop diverges when `size ≤ 0`; with fuel
`rem.toNat + 1` the model below computes the loop's exact result whenever
`0 < size`, the only case reachable from parsed positive dimensions. -/
def count_sub (fuel : Nat) (rem size : Int) : Int :=
  match fuel with
  | 0 => 0
  | f + 1 => if size ≤ rem then count_sub f (rem - size) size + 1 else 0

/-- Number of copies of a piece of area `size` the greedy loop takes out of
`rem` remaining area units. -/
def count_pieces (rem size : Int) : Int := count_sub (rem.toNat + 1) rem size

/-- Greedy packing loop of `find_efficient_substitute` lines 79-99: walk the
descending candidates, skip pieces that do not fit the footprint, take
`count_pieces remaining size` copies of each fitting piece, and break as soon
as the remaining area reaches zero. -/
def greedy_pass (W L : Int) : List Candidate → Int → List SubEntry → List SubEntry × Int
  | [], remaining, subs => (subs, remaining)
  | c :: rest, remaining, subs =>
    if c.width ≤ W ∧ c.length ≤ L then
      if 0 < count_pieces remaining c.size then
        if remaining - count_pieces remaining c.size * c.size = 0 then
          (subs ++
            [{ brick_type := c.brick_type, element_id := c.color_data.element_id,
               quantity := count_pieces remaining c.size }], 0)
        else
          greedy_pass W L rest (remaining - count_pieces remaining c.size * c.size)
            (subs ++
              [{ brick_type := c.brick_type, element_id := c.color_data.element_id,
                 quantity := count_pieces remaining c.size }])
      else greedy_pass W L rest remaining subs
    else greedy_pass W L rest remaining subs

/-- Python's `min(candidates, key=size)`: the first element with minimal size,
`none` on an empty list. -/
def min_by_size : List Candidate → Option Candidate
  | [] => none
  | c :: rest => some (rest.foldl (fun best x => if x.size < best.size then x else best) c)

/-- The unit fallback of `find_efficient_substitute` (lines 105-120): when
area remains after the greedy pass, cover it with the minimal candidate
provided that candidate is a unit piece, else fail. -/
def code_fallback (res : List SubEntry × Int) :
    Option Candidate → Option (List SubEntry)
  | none => none
  | some smallest =>
    if 0 < res.2 ∧ smallest.size = 1 then
      some (res.1 ++
        [{ brick_type := smallest.brick_type,
           element_id := smallest.color_data.element_id, quantity := res.2 }])
    else none

/-- Part of `find_efficient_substitute` after candidate building (lines
62-120): return `None` when the candidate list is empty, otherwise sort
descending by size (Python's stable sort), run the greedy pass over the whole
target area, and if area remains run the unit fallback. -/
def synth_from_candidates (W L : Int) (cands : List Candidate) :
    Option (List SubEntry) :=
  match cands with
  | [] => none
  | _ :: _ =>
    if (greedy_pass W L (stable_sort (fun a b => b.size ≤ a.size) cands) (W * L) []).2
        = 0 then
      some (greedy_pass W L (stable_sort (fun a b => b.size ≤ a.size) cands) (W * L) []).1
    else
      code_fallback
        (greedy_pass W L (stable_sort (fun a b => b.size ≤ a.size) cands) (W * L) [])
        (min_by_size (stable_sort (fun a b => b.size ≤ a.size) cands))

/-- Embedding of `find_efficient_substitute` (lines 28-120): build the
candidates, then synthesize from them. -/
def find_efficient_substitute (target_width target_length : Int)
    (available_pieces : List BrickInfo) (color_name : String) :
    Option (List SubEntry) :=
  synth_from_candidates target_width target_length
    (build_candidates target_width target_length available_pieces color_name)

/-- The two failure modes of the synthesizer named by the spec. -/
inductive SynthErr where
  | NoCandidate
  | Unfillable
deriving Repr, DecidableEq

/-- The synthesizer with its two `return None` sites labelled: the empty
candidate list (line 63) is `NoCandidate`, the final fall-through (line 120)
is `Unfillable`.  Modulo the labels this is exactly `find_efficient_substitute`. -/
def find_efficient_substitute_err (target_width target_length : Int)
    (available_pieces : List BrickInfo) (color_name : String) :
    Except SynthErr (List SubEntry) :=
  match build_candidates target_width target_length available_pieces color_name with
  | [] => .error .NoCandidate
  | _ :: _ =>
    match find_efficient_substitute target_width target_length available_pieces color_name with
    | some subs => .ok subs
    | none => .error .Unfillable

/-! ## Catalog Augmenter: `generate_with_substitutes` -/

/-- The `brick_info` dictionary built for one raw record (lines 134-148);
`none` when `parse_brick_type` raises. -/
def parse_to_info (b : RawBrick) : Option BrickInfo :=
  (parse_brick_type b.brick_type).map fun tnl =>
    { element_id := b.element_id, brick_type := b.brick_type,
      type_name := tnl.1, width := tnl.2.1, length := tnl.2.2,
      size := calculate_size tnl.2.1 tnl.2.2,
      colors_data := b.colors, num_colors := b.num_colors }

/-- All records parsed in order (the Python loop raises on the first
malformed label, so one bad label fails the whole run). -/
def parsed_infos : List RawBrick → Option (List BrickInfo)
  | [] => some []
  | b :: rest =>
    match parse_to_info b, parsed_infos rest with
    | some bi, some l => some (bi :: l)
    | _, _ => none

/-- The family bucket `bricks_by_type[t]` after the ascending stable sort by
size (lines 150-156). -/
def sorted_family (parsed : List BrickInfo) (t : String) : List BrickInfo :=
  stable_sort (fun a b => a.size ≤ b.size) (parsed.filter fun b => b.type_name == t)

/-- The `smaller_bricks` pool of one record (lines 166-169): same-family
pieces of strictly smaller size, in ascending size order. -/
def smaller_pool (parsed : List BrickInfo) (bi : BrickInfo) : List BrickInfo :=
  (sorted_family parsed bi.type_name).filter fun b => b.size < bi.size

/-- The sorted list of missing color names of one record (lines 171-181 and
the `sorted(...)` on line 192): colors present on a strictly smaller
same-family piece but absent from the record's own colors. -/
def missing_colors (smaller : List BrickInfo) (current : List ColorData) : List String :=
  let current_names := current.map (fun c => c.color_name)
  let below := (smaller.map (fun s => s.colors_data.map fun c => c.color_name)).flatten
  stable_sort str_le (dedup (below.filter fun n => !current_names.contains n))

/-- RGB lookup for a synthesized color (lines 202-208): the `rgb` of the first
smaller piece, in ascending size order, that carries the color. -/
def rgb_lookup (smaller : List BrickInfo) (cname : String) : Option String :=
  match smaller with
  | [] => none
  | s :: rest =>
    match s.colors_data.find? (fun c => c.color_name == cname) with
    | some cd => cd.rgb
    | none => rgb_lookup rest cname

/-- Price contribution of one substitute entry (lines 213-219): scan the
smaller bricks for the first one with the entry's `brick_type` that carries
the color, and multiply its price (missing price read as 0) by the quantity. -/
def sub_price (smaller : List BrickInfo) (cname : String) (e : SubEntry) : Dec :=
  match smaller with
  | [] => Dec.zero
  | s :: rest =>
    if s.brick_type == e.brick_type then
      match s.colors_data.find? (fun c => c.color_name == cname) with
      | some cd => (cd.price.getD Dec.zero).mulInt e.quantity
      | none => sub_price rest cname e
    else sub_price rest cname e

/-- Total price of a substitute composition (lines 210-219). -/
def total_price (smaller : List BrickInfo) (cname : String) (subs : List SubEntry) : Dec :=
  subs.foldl (fun acc e => acc.add (sub_price smaller cname e)) Dec.zero

/-- The new color entry appended for a successfully synthesized color
(lines 221-231). -/
def subst_color_entry (smaller : List BrickInfo) (cname : String)
    (subs : List SubEntry) : ColorData :=
  { color_name := cname, element_id := none, rgb := rgb_lookup smaller cname,
    price := some (total_price smaller cname subs).round2,
    is_substitute := true, substitutes := subs }

/-- Augmentation of one record (lines 161-236): keep the existing colors,
append one substitute entry per missing color the synthesizer can fill, and
recompute `num_colors`. -/
def augment_one (family_sorted : List BrickInfo) (bi : BrickInfo) : RawBrick :=
  let smaller := family_sorted.filter fun b => b.size < bi.size
  let missing := missing_colors smaller bi.colors_data
  let new_colors := missing.filterMap fun cname =>
    (find_efficient_substitute bi.width bi.length smaller cname).map
      (subst_color_entry smaller cname)
  { element_id := bi.element_id, brick_type := bi.brick_type,
    num_colors := (bi.colors_data ++ new_colors).length,
    colors := bi.colors_data ++ new_colors }

/-- Embedding of the core of `generate_with_substitutes` (lines 123-240, the
pure transformation between the JSON load and the JSON dump). -/
def generate_with_substitutes (data : List RawBrick) : Option (List RawBrick) :=
  match parsed_infos data with
  | none => none
  | some parsed =>
    some (parsed.map fun bi => augment_one (sorted_family parsed bi.type_name) bi)

/-! ## Universal Palette Deriver: `create_universal_palette` -/

/-- The reference-unit search of `create_universal_palette` (lines 40-48): a
plain loop over the records keeps the LAST one bearing the wanted label. -/
def find_labeled (data : List RawBrick) (label : String) : Option RawBrick :=
  data.foldl (fun acc p => if p.brick_type == label then some p else acc) none

/-- Direct (non-substitute) color names of a record (lines 54-63). -/
def direct_color_names (p : RawBrick) : List String :=
  (p.colors.filter fun c => !c.is_substitute).map fun c => c.color_name

/-- Palette filter for one record (lines 104-126): keep the colors in the
palette, drop the record when none survive, recompute `num_colors`. -/
def filter_piece (universal : List String) (piece : RawBrick) : Option RawBrick :=
  let fc := piece.colors.filter fun c => universal.contains c.color_name
  if fc.isEmpty then none
  else some { element_id := piece.element_id, brick_type := piece.brick_type,
              num_colors := fc.length, colors := fc }

/-- Palette filter over the whole catalog. -/
def filter_catalog (universal : List String) (data : List RawBrick) : List RawBrick :=
  data.filterMap (filter_piece universal)

/-- Embedding of the core of `create_universal_palette.main` (lines 40-126):
find the records labelled `BRICK 1X1` and `PLATE 1X1` (the run stops with no
output when either is absent), intersect their direct color names, and filter
the catalog down to that palette. -/
def create_universal_palette (data : List RawBrick) :
    Option (List String × List RawBrick) :=
  match find_labeled data "BRICK 1X1", find_labeled data "PLATE 1X1" with
  | some b, some p =>
    let universal := (direct_color_names b).filter fun n =>
      (direct_color_names p).contains n
    some (universal, filter_catalog universal data)
  | _, _ => none

/-! ## Claim-side reference definitions -/

/-- Area of the piece a substitute entry references, read off its label
(labels have the shape `"<FAMILY> <W>X<L>"`, so the referenced area is
`W * L`); `0` for an unparsable label. -/
def label_area (s : String) : Int :=
  match parse_brick_type s with
  | some t => t.2.1 * t.2.2
  | none => 0

/-- Total area covered by a substitute composition:
`Σ area(entry.piece_type) × entry.quantity`. -/
def subs_area (l : List SubEntry) : Int :=
  (l.map fun e => label_area e.brick_type * e.quantity).sum

/-- Family tag of a catalog record, read off its label. -/
def family_of (p : RawBrick) : Option String :=
  (parse_brick_type p.brick_type).map fun t => t.1

/-- Greedy pass exactly as the spec words it (spec section 4.3 step 3): the
pass stops as soon as `remaining = 0`, and each fitting candidate contributes
`count = floor(remaining / area(c))` pieces. -/
def spec_pass (W L : Int) : List Candidate → Int → List SubEntry → List SubEntry × Int
  | [], rem, acc => (acc, rem)
  | c :: rest, rem, acc =>
    if rem = 0 then (acc, 0)
    else if c.width ≤ W ∧ c.length ≤ L then
      if 0 < rem / c.size then
        spec_pass W L rest (rem - rem / c.size * c.size)
          (acc ++ [{ brick_type := c.brick_type,
                     element_id := c.color_data.element_id,
                     quantity := rem / c.size }])
      else spec_pass W L rest rem acc
    else spec_pass W L rest rem acc

/-- Reference greedy synthesizer, transcribed from the spec's wording of the
algorithm (spec section 4.3): candidates are the pool pieces carrying the
color, sorted descending by area with the stable tie-break; the greedy pass
uses floor division and stops at zero; the unit fallback covers what remains
with the minimum-area candidate when that candidate has area 1. -/
def spec_fallback (res : List SubEntry × Int) :
    Option Candidate → Option (List SubEntry)
  | none => none
  | some u =>
    if u.size = 1 then
      some (res.1 ++
        [{ brick_type := u.brick_type,
           element_id := u.color_data.element_id, quantity := res.2 }])
    else none

/-- Synthesis from the spec's candidate list: spec greedy pass, then the unit
fallback as the spec words it. -/
def spec_synth_from_candidates (W L : Int) (cands : List Candidate) :
    Option (List SubEntry) :=
  match cands with
  | [] => none
  | _ :: _ =>
    if (spec_pass W L (stable_sort (fun a b => b.size ≤ a.size) cands) (W * L) []).2
        = 0 then
      some (spec_pass W L (stable_sort (fun a b => b.size ≤ a.size) cands) (W * L) []).1
    else
      spec_fallback
        (spec_pass W L (stable_sort (fun a b => b.size ≤ a.size) cands) (W * L) [])
        (min_by_size (stable_sort (fun a b => b.size ≤ a.size) cands))

/-- Reference greedy synthesizer, assembled from the spec's candidate set (no
area pre-filter: every pool piece carrying the color). -/
def spec_greedy (W L : Int) (pool : List BrickInfo) (color_name : String) :
    Option (List SubEntry) :=
  spec_synth_from_candidates W L (pool.filterMap fun piece =>
    (piece.colors_data.find? (fun c => c.color_name == color_name)).map fun cd =>
      { brick_type := piece.brick_type, width := piece.width,
        length := piece.length, size := piece.size, color_data := cd })

instance [DecidableEq ε] [DecidableEq α] : DecidableEq (Except ε α) := fun a b =>
  match a, b with
  | .error x, .error y =>
    if h : x = y then .isTrue (by rw [h]) else .isFalse (by simp [h])
  | .error _, .ok _ => .isFalse (by simp)
  | .ok _, .error _ => .isFalse (by simp)
  | .ok x, .ok y =>
    if h : x = y then .isTrue (by rw [h]) else .isFalse (by simp [h])

/-! ## Helper lemmas: sorting, minima, counting -/

theorem insert_stable_mem (le : α → α → Bool) (x : α) (l : List α) (a : α) :
    a ∈ insert_stable le x l ↔ a = x ∨ a ∈ l := by
  induction l with
  | nil => simp [insert_stable]
  | cons y ys ih =>
    by_cases h : le x y = true
    · simp [insert_stable, h]
    · simp only [insert_stable, h, if_false, Bool.false_eq_true, List.mem_cons, ih]
      tauto

theorem stable_sort_mem (le : α → α → Bool) (l : List α) (a : α) :
    a ∈ stable_sort le l ↔ a ∈ l := by
  induction l with
  | nil => simp [stable_sort]
  | cons x xs ih => simp [stable_sort, insert_stable_mem, ih]

theorem min_fold_spec (rest : List Candidate) : ∀ c : Candidate,
    (rest.foldl (fun best x => if x.size < best.size then x else best) c) ∈ c :: rest ∧
    (rest.foldl (fun best x => if x.size < best.size then x else best) c).size ≤ c.size ∧
    ∀ x ∈ rest,
      (rest.foldl (fun best x => if x.size < best.size then x else best) c).size ≤ x.size := by
  induction rest with
  | nil => intro c; simp
  | cons y ys ih =>
    intro c
    simp only [List.foldl_cons]
    by_cases h : y.size < c.size
    · simp only [if_pos h]
      obtain ⟨hmem, hle, hall⟩ := ih y
      rw [List.mem_cons] at hmem
      refine ⟨?_, ?_, ?_⟩
      · rcases hmem with h1 | h1
        · exact List.mem_cons_of_mem _ (by rw [h1]; exact List.mem_cons_self _ _)
        · exact List.mem_cons_of_mem _ (List.mem_cons_of_mem _ h1)
      · omega
      · intro x hx
        rw [List.mem_cons] at hx
        rcases hx with h1 | h1
        · rw [h1]; exact hle
        · exact hall x h1
    · simp only [if_neg h]
      obtain ⟨hmem, hle, hall⟩ := ih c
      rw [List.mem_cons] at hmem
      refine ⟨?_, hle, ?_⟩
      · rcases hmem with h1 | h1
        · rw [h1]; exact List.mem_cons_self _ _
        · exact List.mem_cons_of_mem _ (List.mem_cons_of_mem _ h1)
      · intro x hx
        rw [List.mem_cons] at hx
        rcases hx with h1 | h1
        · rw [h1]; omega
        · exact hall x h1

theorem min_by_size_spec (l : List Candidate) (m : Candidate)
    (h : min_by_size l = some m) : m ∈ l ∧ ∀ x ∈ l, m.size ≤ x.size := by
  match l with
  | [] => simp [min_by_size] at h
  | c :: rest =>
    simp only [min_by_size, Option.some.injEq] at h
    obtain ⟨hmem, hle, hall⟩ := min_fold_spec rest c
    subst h
    refine ⟨hmem, ?_⟩
    intro x hx
    rw [List.mem_cons] at hx
    rcases hx with h1 | h1
    · rw [h1]; exact hle
    · exact hall x h1

theorem count_sub_eq_ediv (fuel : Nat) : ∀ rem size : Int, 0 < size → 0 ≤ rem →
    rem.toNat < fuel → count_sub fuel rem size = rem / size := by
  induction fuel with
  | zero => intro rem size _ _ h; omega
  | succ f ih =>
    intro rem size hs hr hf
    unfold count_sub
    by_cases h : size ≤ rem
    · rw [if_pos h, ih (rem - size) size hs (by omega) (by omega)]
      have : rem - size + 1 * size = rem := by ring
      calc (rem - size) / size + 1 = (rem - size + 1 * size) / size := by
            rw [Int.add_mul_ediv_right _ _ (by omega : size ≠ 0)]
        _ = rem / size := by rw [this]
    · rw [if_neg h, Int.ediv_eq_zero_of_lt hr (by omega)]

theorem count_pieces_eq_ediv (rem size : Int) (hs : 0 < size) (hr : 0 ≤ rem) :
    count_pieces rem size = rem / size :=
  count_sub_eq_ediv _ rem size hs hr (by omega)

theorem count_pieces_zero (size : Int) (hs : 0 < size) : count_pieces 0 size = 0 := by
  rw [count_pieces_eq_ediv 0 size hs le_rfl, Int.zero_ediv]

theorem subs_area_append (l1 l2 : List SubEntry) :
    subs_area (l1 ++ l2) = subs_area l1 + subs_area l2 := by
  simp [subs_area]

theorem subs_area_single (e : SubEntry) :
    subs_area [e] = label_area e.brick_type * e.quantity := by
  simp [subs_area]

theorem greedy_area (W L : Int) (cands : List Candidate) :
    ∀ (rem : Int) (acc : List SubEntry),
    (∀ c ∈ cands, label_area c.brick_type = c.size) →
    subs_area (greedy_pass W L cands rem acc).1 + (greedy_pass W L cands rem acc).2
      = subs_area acc + rem := by
  induction cands with
  | nil => intro rem acc _; simp [greedy_pass]
  | cons c rest ih =>
    intro rem acc hcons
    have hc : label_area c.brick_type = c.size := hcons c (List.mem_cons_self _ _)
    have hrest : ∀ x ∈ rest, label_area x.brick_type = x.size :=
      fun x hx => hcons x (List.mem_cons_of_mem _ hx)
    rw [greedy_pass]
    by_cases hfit : c.width ≤ W ∧ c.length ≤ L
    · rw [if_pos hfit]
      by_cases hpos : 0 < count_pieces rem c.size
      · rw [if_pos hpos]
        by_cases hz : rem - count_pieces rem c.size * c.size = 0
        · rw [if_pos hz]
          simp only [subs_area_append, subs_area_single]
          rw [hc]
          have : rem = count_pieces rem c.size * c.size := by omega
          nlinarith [this]
        · rw [if_neg hz, ih _ _ hrest, subs_area_append, subs_area_single]
          rw [hc]
          ring
      · rw [if_neg hpos]; exact ih _ _ hrest
    · rw [if_neg hfit]; exact ih _ _ hrest

theorem greedy_rem_nonneg (W L : Int) (cands : List Candidate) :
    ∀ (rem : Int) (acc : List SubEntry),
    (∀ c ∈ cands, 0 < c.size) → 0 ≤ rem →
    0 ≤ (greedy_pass W L cands rem acc).2 := by
  induction cands with
  | nil => intro rem acc _ hr; simpa [greedy_pass] using hr
  | cons c rest ih =>
    intro rem acc hpos hr
    have hc : 0 < c.size := hpos c (List.mem_cons_self _ _)
    have hrest : ∀ x ∈ rest, 0 < x.size := fun x hx => hpos x (List.mem_cons_of_mem _ hx)
    rw [greedy_pass]
    by_cases hfit : c.width ≤ W ∧ c.length ≤ L
    · rw [if_pos hfit]
      by_cases hp : 0 < count_pieces rem c.size
      · rw [if_pos hp]
        have hrem1 : 0 ≤ rem - count_pieces rem c.size * c.size := by
          rw [count_pieces_eq_ediv rem c.size hc hr]
          have h1 : c.size * (rem / c.size) + rem % c.size = rem :=
            Int.ediv_add_emod rem c.size
          have h2 : 0 ≤ rem % c.size := Int.emod_nonneg rem (by omega)
          have h3 : rem / c.size * c.size = c.size * (rem / c.size) := by ring
          omega
        by_cases hz : rem - count_pieces rem c.size * c.size = 0
        · rw [if_pos hz]
        · rw [if_neg hz]; exact ih _ _ hrest hrem1
      · rw [if_neg hp]; exact ih _ _ hrest hr
    · rw [if_neg hfit]; exact ih _ _ hrest hr

theorem greedy_pass_zero (W L : Int) (cands : List Candidate) :
    ∀ acc, (∀ c ∈ cands, 0 < c.size) →
    greedy_pass W L cands 0 acc = (acc, 0) := by
  induction cands with
  | nil => intro acc _; rfl
  | cons c rest ih =>
    intro acc hpos
    have hc : 0 < c.size := hpos c (List.mem_cons_self _ _)
    have hrest : ∀ x ∈ rest, 0 < x.size := fun x hx => hpos x (List.mem_cons_of_mem _ hx)
    rw [greedy_pass, count_pieces_zero c.size hc]
    by_cases hfit : c.width ≤ W ∧ c.length ≤ L
    · rw [if_pos hfit, if_neg (by omega : ¬ (0:Int) < 0)]
      exact ih acc hrest
    · rw [if_neg hfit]; exact ih acc hrest

theorem spec_pass_zero (W L : Int) (cands : List Candidate) (acc : List SubEntry) :
    spec_pass W L cands 0 acc = (acc, 0) := by
  cases cands with
  | nil => rfl
  | cons c rest => rw [spec_pass, if_pos rfl]

theorem greedy_eq_spec_pass (W L : Int) (cands : List Candidate) :
    ∀ (rem : Int) (acc : List SubEntry),
    (∀ c ∈ cands, 0 < c.size) → 0 ≤ rem →
    greedy_pass W L cands rem acc = spec_pass W L cands rem acc := by
  induction cands with
  | nil => intro rem acc _ _; rfl
  | cons c rest ih =>
    intro rem acc hpos hr
    have hc : 0 < c.size := hpos c (List.mem_cons_self _ _)
    have hrest : ∀ x ∈ rest, 0 < x.size := fun x hx => hpos x (List.mem_cons_of_mem _ hx)
    by_cases hz : rem = 0
    · subst hz
      rw [greedy_pass_zero W L _ _ hpos, spec_pass_zero]
    · rw [greedy_pass, spec_pass, if_neg hz, count_pieces_eq_ediv rem c.size hc hr]
      by_cases hfit : c.width ≤ W ∧ c.length ≤ L
      · rw [if_pos hfit, if_pos hfit]
        by_cases hp : 0 < rem / c.size
        · rw [if_pos hp, if_pos hp]
          have hrem1 : 0 ≤ rem - rem / c.size * c.size := by
            have h1 : c.size * (rem / c.size) + rem % c.size = rem :=
              Int.ediv_add_emod rem c.size
            have h2 : 0 ≤ rem % c.size := Int.emod_nonneg rem (by omega)
            have h3 : rem / c.size * c.size = c.size * (rem / c.size) := by ring
            omega
          by_cases h0 : rem - rem / c.size * c.size = 0
          · rw [if_pos h0, h0, spec_pass_zero]
          · rw [if_neg h0]
            exact ih _ _ hrest hrem1
        · rw [if_neg hp, if_neg hp]
          exact ih _ _ hrest hr
      · rw [if_neg hfit, if_neg hfit]
        exact ih _ _ hrest hr

theorem build_candidates_mem (W L : Int) (pool : List BrickInfo) (cname : String)
    (c : Candidate) :
    c ∈ build_candidates W L pool cname ↔
      ∃ p ∈ pool, p.size < W * L ∧
        ∃ cd, p.colors_data.find? (fun x => x.color_name == cname) = some cd ∧
          c = { brick_type := p.brick_type, width := p.width, length := p.length,
                size := p.size, color_data := cd } := by
  simp only [build_candidates, List.mem_filterMap]
  constructor
  · rintro ⟨p, hp, hf⟩
    by_cases hlt : p.size < W * L
    · rw [if_pos hlt] at hf
      cases hfind : p.colors_data.find? (fun x => x.color_name == cname) with
      | none => rw [hfind] at hf; exact Option.noConfusion hf
      | some cd =>
        rw [hfind] at hf
        simp only [Option.map_some', Option.some.injEq] at hf
        exact ⟨p, hp, hlt, cd, hfind, hf.symm⟩
    · rw [if_neg hlt] at hf; exact Option.noConfusion hf
  · rintro ⟨p, hp, hlt, cd, hfind, hceq⟩
    refine ⟨p, hp, ?_⟩
    rw [if_pos hlt, hfind]
    simp [hceq]

theorem candidate_sizes_pos (W L : Int) (pool : List BrickInfo) (cname : String)
    (hpos : ∀ p ∈ pool, 0 < p.size) :
    ∀ c ∈ build_candidates W L pool cname, 0 < c.size := by
  intro c hc
  rw [build_candidates_mem] at hc
  obtain ⟨p, hp, _, cd, _, hceq⟩ := hc
  rw [hceq]
  exact hpos p hp

theorem candidate_labels (W L : Int) (pool : List BrickInfo) (cname : String)
    (hlab : ∀ p ∈ pool, label_area p.brick_type = p.size) :
    ∀ c ∈ build_candidates W L pool cname, label_area c.brick_type = c.size := by
  intro c hc
  rw [build_candidates_mem] at hc
  obtain ⟨p, hp, _, cd, _, hceq⟩ := hc
  rw [hceq]
  exact hlab p hp

theorem code_fallback_some (res : List SubEntry × Int) (m : Option Candidate)
    (subs : List SubEntry) :
    code_fallback res m = some subs ↔
      ∃ smallest, m = some smallest ∧ (0 < res.2 ∧ smallest.size = 1) ∧
        subs = res.1 ++
          [{ brick_type := smallest.brick_type,
             element_id := smallest.color_data.element_id, quantity := res.2 }] := by
  cases m with
  | none =>
    constructor
    · intro h; exact Option.noConfusion h
    · rintro ⟨sm, hsm, _⟩; exact Option.noConfusion hsm
  | some sm =>
    rw [code_fallback]
    by_cases hcond : 0 < res.2 ∧ sm.size = 1
    · rw [if_pos hcond]
      constructor
      · intro h
        exact ⟨sm, rfl, hcond, (Option.some.injEq _ _ ▸ h).symm⟩
      · rintro ⟨sm2, hsm2, _, hs⟩
        cases hsm2
        rw [hs]
    · rw [if_neg hcond]
      constructor
      · intro h; exact Option.noConfusion h
      · rintro ⟨sm2, hsm2, hc2, _⟩
        cases hsm2
        exact absurd hc2 hcond

theorem synth_area (W L : Int) (cands : List Candidate)
    (hlab : ∀ c ∈ cands, label_area c.brick_type = c.size)
    (subs : List SubEntry)
    (h : synth_from_candidates W L cands = some subs) :
    subs_area subs = W * L := by
  match cands with
  | [] => simp [synth_from_candidates] at h
  | c0 :: cs =>
    have hlab2 : ∀ c ∈ stable_sort (fun a b => b.size ≤ a.size) (c0 :: cs),
        label_area c.brick_type = c.size := by
      intro c hc
      exact hlab c ((stable_sort_mem _ _ _).mp hc)
    have harea := greedy_area W L (stable_sort (fun a b => b.size ≤ a.size) (c0 :: cs))
      (W * L) [] hlab2
    have hnil : subs_area ([] : List SubEntry) = 0 := rfl
    rw [synth_from_candidates] at h
    split at h
    next h0 =>
      cases h
      omega
    next h0 =>
      rw [code_fallback_some] at h
      obtain ⟨smallest, hmin, hcond, hs⟩ := h
      have hsm : smallest ∈ stable_sort (fun a b => b.size ≤ a.size) (c0 :: cs) :=
        (min_by_size_spec _ _ hmin).1
      have hsl : label_area smallest.brick_type = smallest.size := hlab2 smallest hsm
      rw [hs, subs_area_append, subs_area_single]
      dsimp only
      rw [hsl, hcond.2]
      omega

theorem min_by_size_isSome (l : List Candidate) (h : l ≠ []) :
    ∃ m, min_by_size l = some m := by
  cases l with
  | nil => exact absurd rfl h
  | cons c rest => exact ⟨_, rfl⟩

theorem synth_eq_spec (W L : Int) (cands : List Candidate)
    (hpos : ∀ c ∈ cands, 0 < c.size) (hWL : 0 ≤ W * L) :
    synth_from_candidates W L cands = spec_synth_from_candidates W L cands := by
  match cands with
  | [] => rfl
  | c0 :: cs =>
    have hpos2 : ∀ c ∈ stable_sort (fun a b => b.size ≤ a.size) (c0 :: cs), 0 < c.size :=
      fun c hc => hpos c ((stable_sort_mem _ _ _).mp hc)
    have hpass := greedy_eq_spec_pass W L
      (stable_sort (fun a b => b.size ≤ a.size) (c0 :: cs)) (W * L) [] hpos2 hWL
    have hr0 : 0 ≤ (spec_pass W L
        (stable_sort (fun a b => b.size ≤ a.size) (c0 :: cs)) (W * L) []).2 := by
      have hg := greedy_rem_nonneg W L
        (stable_sort (fun a b => b.size ≤ a.size) (c0 :: cs)) (W * L) [] hpos2 hWL
      rwa [hpass] at hg
    rw [synth_from_candidates, spec_synth_from_candidates, hpass]
    by_cases h0 : (spec_pass W L
        (stable_sort (fun a b => b.size ≤ a.size) (c0 :: cs)) (W * L) []).2 = 0
    · rw [if_pos h0, if_pos h0]
    · rw [if_neg h0, if_neg h0]
      cases hmin : min_by_size (stable_sort (fun a b => b.size ≤ a.size) (c0 :: cs)) with
      | none => rfl
      | some sm =>
        rw [code_fallback, spec_fallback]
        by_cases hs : sm.size = 1
        · rw [if_pos ⟨by omega, hs⟩, if_pos hs]
        · rw [if_neg (by tauto), if_neg hs]

theorem find_success_with_unit (W L : Int) (pool : List BrickInfo) (cname : String)
    (hpos : ∀ p ∈ pool, 0 < p.size)
    (hsmall : ∀ p ∈ pool, p.size < W * L)
    (hWL : 0 ≤ W * L)
    (u : BrickInfo) (hu : u ∈ pool) (husize : u.size = 1)
    (cd : ColorData)
    (hucolor : u.colors_data.find? (fun c => c.color_name == cname) = some cd) :
    ∃ subs, find_efficient_substitute W L pool cname = some subs := by
  have hcu : Candidate.mk u.brick_type u.width u.length u.size cd
      ∈ build_candidates W L pool cname :=
    (build_candidates_mem W L pool cname _).mpr ⟨u, hu, hsmall u hu, cd, hucolor, rfl⟩
  simp only [find_efficient_substitute]
  cases hc : build_candidates W L pool cname with
  | nil => rw [hc] at hcu; exact absurd hcu (List.not_mem_nil _)
  | cons c0 cs =>
    rw [hc] at hcu
    have hpos2 : ∀ c ∈ stable_sort (fun a b => b.size ≤ a.size) (c0 :: cs), 0 < c.size := by
      intro c hcm
      have hmem := (stable_sort_mem _ _ _).mp hcm
      rw [← hc] at hmem
      rw [build_candidates_mem] at hmem
      obtain ⟨p, hp, _, cd2, _, hceq⟩ := hmem
      rw [hceq]
      exact hpos p hp
    rw [synth_from_candidates]
    by_cases h0 : (greedy_pass W L
        (stable_sort (fun a b => b.size ≤ a.size) (c0 :: cs)) (W * L) []).2 = 0
    · rw [if_pos h0]; exact ⟨_, rfl⟩
    · rw [if_neg h0]
      obtain ⟨m, hm⟩ := min_by_size_isSome
        (stable_sort (fun a b => b.size ≤ a.size) (c0 :: cs))
        (by
          intro hnil
          have hin : c0 ∈ stable_sort (fun a b => b.size ≤ a.size) (c0 :: cs) :=
            (stable_sort_mem _ _ _).mpr (List.mem_cons_self _ _)
          rw [hnil] at hin
          exact absurd hin (List.not_mem_nil _))
      rw [hm]
      have hmspec := min_by_size_spec _ _ hm
      have hcusort : Candidate.mk u.brick_type u.width u.length u.size cd
          ∈ stable_sort (fun a b => b.size ≤ a.size) (c0 :: cs) :=
        (stable_sort_mem _ _ _).mpr hcu
      have hmle := hmspec.2 _ hcusort
      have hmge : 0 < m.size := hpos2 m hmspec.1
      have hm1 : m.size = 1 := by
        dsimp only at hmle
        omega
      have hrpos : 0 < (greedy_pass W L
          (stable_sort (fun a b => b.size ≤ a.size) (c0 :: cs)) (W * L) []).2 := by
        have hnn := greedy_rem_nonneg W L
          (stable_sort (fun a b => b.size ≤ a.size) (c0 :: cs)) (W * L) [] hpos2 hWL
        omega
      rw [code_fallback, if_pos ⟨hrpos, hm1⟩]
      exact ⟨_, rfl⟩

theorem find_eq_spec_greedy (W L : Int) (pool : List BrickInfo) (cname : String)
    (hW : 1 ≤ W) (hL : 1 ≤ L)
    (hpool : ∀ p ∈ pool, 0 < p.size ∧ p.size < W * L) :
    find_efficient_substitute W L pool cname = spec_greedy W L pool cname := by
  have hcand : build_candidates W L pool cname = pool.filterMap (fun piece =>
      (piece.colors_data.find? (fun c => c.color_name == cname)).map fun cd =>
        { brick_type := piece.brick_type, width := piece.width,
          length := piece.length, size := piece.size, color_data := cd }) := by
    simp only [build_candidates]
    apply List.filterMap_congr
    intro p hp
    rw [if_pos (hpool p hp).2]
  have hWL : 0 ≤ W * L := mul_nonneg (by omega) (by omega)
  rw [find_efficient_substitute, spec_greedy, hcand]
  apply synth_eq_spec _ _ _ _ hWL
  intro c hc
  rw [← hcand] at hc
  rw [build_candidates_mem] at hc
  obtain ⟨p, hp, _, cd, _, hceq⟩ := hc
  rw [hceq]
  exact (hpool p hp).1

/-! ## Structural lemmas about the augmentation pipeline -/

theorem parsed_infos_mem (data : List RawBrick) :
    ∀ parsed, parsed_infos data = some parsed →
    ∀ bi ∈ parsed, ∃ rb ∈ data, parse_to_info rb = some bi := by
  induction data with
  | nil =>
    intro parsed h bi hbi
    rw [parsed_infos] at h
    cases h
    exact absurd hbi (List.not_mem_nil _)
  | cons b rest ih =>
    intro parsed h bi hbi
    rw [parsed_infos] at h
    split at h
    next bi0 l hb hrest =>
      cases h
      rw [List.mem_cons] at hbi
      rcases hbi with hbi | hbi
      · exact ⟨b, List.mem_cons_self _ _, hbi ▸ hb⟩
      · obtain ⟨rb, hrb, hh⟩ := ih l hrest bi hbi
        exact ⟨rb, List.mem_cons_of_mem _ hrb, hh⟩
    next => exact Option.noConfusion h

theorem parse_to_info_props (rb : RawBrick) (bi : BrickInfo)
    (h : parse_to_info rb = some bi) :
    parse_brick_type rb.brick_type = some (bi.type_name, bi.width, bi.length) ∧
    bi.brick_type = rb.brick_type ∧ bi.size = bi.width * bi.length ∧
    bi.colors_data = rb.colors ∧ bi.element_id = rb.element_id ∧
    bi.num_colors = rb.num_colors := by
  rw [parse_to_info] at h
  cases hp : parse_brick_type rb.brick_type with
  | none => rw [hp] at h; exact Option.noConfusion h
  | some t =>
    rw [hp] at h
    simp only [Option.map_some', Option.some.injEq] at h
    subst h
    exact ⟨rfl, rfl, rfl, rfl, rfl, rfl⟩

theorem parse_to_info_label (rb : RawBrick) (bi : BrickInfo)
    (h : parse_to_info rb = some bi) : label_area bi.brick_type = bi.size := by
  obtain ⟨hp, hbt, hsz, _⟩ := parse_to_info_props rb bi h
  rw [label_area, hbt, hp, hsz]

theorem smaller_pool_mem (parsed : List BrickInfo) (bi : BrickInfo) (q : BrickInfo)
    (h : q ∈ smaller_pool parsed bi) :
    q ∈ parsed ∧ q.size < bi.size ∧ q.type_name = bi.type_name := by
  rw [smaller_pool, List.mem_filter] at h
  obtain ⟨hq, hlt⟩ := h
  rw [sorted_family, stable_sort_mem, List.mem_filter] at hq
  refine ⟨hq.1, by simpa using hlt, by simpa using hq.2⟩

theorem generate_some (data : List RawBrick) (parsed : List BrickInfo)
    (h : parsed_infos data = some parsed) :
    generate_with_substitutes data =
      some (parsed.map fun bi => augment_one (sorted_family parsed bi.type_name) bi) := by
  rw [generate_with_substitutes, h]

theorem generate_isSome (data : List RawBrick) :
    (generate_with_substitutes data).isSome = (parsed_infos data).isSome := by
  rw [generate_with_substitutes]
  cases parsed_infos data with
  | none => rfl
  | some parsed => rfl

theorem augment_colors_mem (fs : List BrickInfo) (bi : BrickInfo) (v : ColorData)
    (hdirect : ∀ c ∈ bi.colors_data, c.is_substitute = false)
    (hv : v ∈ (augment_one fs bi).colors) (hsub : v.is_substitute = true) :
    ∃ cname subs,
      find_efficient_substitute bi.width bi.length
        (fs.filter fun b => b.size < bi.size) cname = some subs ∧
      v = subst_color_entry (fs.filter fun b => b.size < bi.size) cname subs := by
  simp only [augment_one] at hv
  rw [List.mem_append] at hv
  rcases hv with hv | hv
  · rw [hdirect v hv] at hsub
    exact Bool.noConfusion hsub
  · rw [List.mem_filterMap] at hv
    obtain ⟨cname, _, hmap⟩ := hv
    cases hfind : find_efficient_substitute bi.width bi.length
        (fs.filter fun b => b.size < bi.size) cname with
    | none => rw [hfind] at hmap; exact Option.noConfusion hmap
    | some subs =>
      rw [hfind] at hmap
      simp only [Option.map_some', Option.some.injEq] at hmap
      exact ⟨cname, subs, hfind, hmap.symm⟩

theorem augment_omit (fs : List BrickInfo) (bi : BrickInfo) (cname : String)
    (hfail : find_efficient_substitute bi.width bi.length
      (fs.filter fun b => b.size < bi.size) cname = none) :
    (cname ∈ (augment_one fs bi).colors.map (fun c => c.color_name) ↔
      cname ∈ bi.colors_data.map fun c => c.color_name) := by
  simp only [augment_one, List.map_append, List.mem_append]
  constructor
  · rintro (h | h)
    · exact h
    · exfalso
      rw [List.mem_map] at h
      obtain ⟨v, hv, hname⟩ := h
      rw [List.mem_filterMap] at hv
      obtain ⟨cn2, _, hmap⟩ := hv
      cases hfind : find_efficient_substitute bi.width bi.length
          (fs.filter fun b => b.size < bi.size) cn2 with
      | none => rw [hfind] at hmap; exact Option.noConfusion hmap
      | some subs =>
        rw [hfind] at hmap
        simp only [Option.map_some', Option.some.injEq] at hmap
        have hcn : cn2 = cname := by rw [← hname, ← hmap]; rfl
        rw [hcn, hfail] at hfind
        exact Option.noConfusion hfind
  · intro h
    exact Or.inl h

/-! ## Structural lemmas about the palette pipeline -/

theorem contains_iff_mem (l : List String) (x : String) :
    l.contains x = true ↔ x ∈ l := List.elem_iff

theorem find_labeled_aux (data : List RawBrick) (label : String) :
    ∀ (init : Option RawBrick) (b : RawBrick),
      data.foldl (fun acc p => if p.brick_type == label then some p else acc) init
        = some b →
      (b ∈ data ∧ b.brick_type = label) ∨ init = some b := by
  induction data with
  | nil => intro init b h; exact Or.inr h
  | cons p rest ih =>
    intro init b h
    rw [List.foldl_cons] at h
    rcases ih _ b h with h1 | h1
    · exact Or.inl ⟨List.mem_cons_of_mem _ h1.1, h1.2⟩
    · by_cases hp : (p.brick_type == label) = true
      · rw [if_pos hp] at h1
        cases h1
        exact Or.inl ⟨List.mem_cons_self _ _, beq_iff_eq.mp hp⟩
      · rw [if_neg hp] at h1
        exact Or.inr h1

theorem find_labeled_spec (data : List RawBrick) (label : String) (b : RawBrick)
    (h : find_labeled data label = some b) : b ∈ data ∧ b.brick_type = label := by
  rcases find_labeled_aux data label none b h with h1 | h1
  · exact h1
  · exact Option.noConfusion h1

theorem filter_piece_idem (u : List String) (p q : RawBrick)
    (h : filter_piece u p = some q) : filter_piece u q = some q := by
  simp only [filter_piece] at h
  by_cases he : (p.colors.filter fun c => u.contains c.color_name).isEmpty
  · rw [if_pos he] at h
    exact Option.noConfusion h
  · rw [if_neg he] at h
    cases h
    simp only [filter_piece]
    have hff : ((p.colors.filter fun c => u.contains c.color_name).filter
        fun c => u.contains c.color_name) =
        p.colors.filter fun c => u.contains c.color_name :=
      List.filter_eq_self.mpr fun a ha => (List.mem_filter.mp ha).2
    rw [hff, if_neg he]

theorem filter_catalog_idem (u : List String) (d : List RawBrick) :
    filter_catalog u (filter_catalog u d) = filter_catalog u d := by
  induction d with
  | nil => rfl
  | cons p rest ih =>
    simp only [filter_catalog] at ih ⊢
    cases hp : filter_piece u p with
    | none =>
      rw [List.filterMap_cons_none hp]
      exact ih
    | some q =>
      rw [List.filterMap_cons_some hp,
          List.filterMap_cons_some (filter_piece_idem u p q hp), ih]

theorem create_upal_some (data : List RawBrick) (b p : RawBrick)
    (hb : find_labeled data "BRICK 1X1" = some b)
    (hp : find_labeled data "PLATE 1X1" = some p) :
    create_universal_palette data =
      some ((direct_color_names b).filter (fun n => (direct_color_names p).contains n),
        filter_catalog
          ((direct_color_names b).filter fun n => (direct_color_names p).contains n)
          data) := by
  rw [create_universal_palette, hb, hp]

theorem create_upal_none (data : List RawBrick)
    (h : find_labeled data "BRICK 1X1" = none ∨ find_labeled data "PLATE 1X1" = none) :
    create_universal_palette data = none := by
  rw [create_universal_palette]
  rcases h with h | h
  · rw [h]
  · rw [h]
    cases find_labeled data "BRICK 1X1" with
    | none => rfl
    | some b => rfl

theorem find_area (W L : Int) (pool : List BrickInfo) (cname : String)
    (hlab : ∀ p ∈ pool, label_area p.brick_type = p.size)
    (subs : List SubEntry)
    (h : find_efficient_substitute W L pool cname = some subs) :
    subs_area subs = W * L := by
  rw [find_efficient_substitute] at h
  exact synth_area W L _ (candidate_labels W L pool cname hlab) subs h

theorem rgb_lookup_split (cname : String) :
    ∀ (pre : List BrickInfo) (s : BrickInfo) (post : List BrickInfo) (cd : ColorData),
    (∀ q ∈ pre, q.colors_data.find? (fun c => c.color_name == cname) = none) →
    s.colors_data.find? (fun c => c.color_name == cname) = some cd →
    rgb_lookup (pre ++ s :: post) cname = cd.rgb := by
  intro pre
  induction pre with
  | nil =>
    intro s post cd _ hs
    rw [List.nil_append, rgb_lookup, hs]
  | cons q pre ih =>
    intro s post cd hpre hs
    rw [List.cons_append, rgb_lookup, hpre q (List.mem_cons_self _ _)]
    exact ih s post cd (fun q2 hq2 => hpre q2 (List.mem_cons_of_mem _ hq2)) hs

/-! ## Concrete data used by the witnesses and counterexamples -/

/-- A direct Blue variant with a given element id. -/
def blue_color (eid : String) : ColorData := { color_name := "Blue", element_id := some eid }

/-- Short constructor for a parsed `brick_info` value. -/
def mk_info (bt tn : String) (w l : Int) (cs : List ColorData) : BrickInfo :=
  { element_id := "x", brick_type := bt, type_name := tn, width := w, length := l,
    size := w * l, colors_data := cs, num_colors := cs.length }

/-- Pool with areas 1, 2, 4 all carrying Blue (spec example, target area 6). -/
def blue_pool : List BrickInfo :=
  [mk_info "BRICK 1X1" "BRICK" 1 1 [blue_color "e11"],
   mk_info "BRICK 1X2" "BRICK" 1 2 [blue_color "e12"],
   mk_info "BRICK 2X2" "BRICK" 2 2 [blue_color "e22"]]

/-- Pool with areas 2 and 4 carrying Green and no unit piece (spec example,
target area 5). -/
def green_pool : List BrickInfo :=
  [mk_info "BRICK 1X2" "BRICK" 1 2 [{ color_name := "Green", element_id := some "g12" }],
   mk_info "BRICK 1X4" "BRICK" 1 4 [{ color_name := "Green", element_id := some "g14" }]]

/-- Pool holding one 1x3 piece carrying Green: too long for a 2x2 target,
but area 3 is below the target area 4, so the source still builds a
candidate from it. -/
def tall_pool : List BrickInfo :=
  [mk_info "BRICK 1X3" "BRICK" 1 3 [{ color_name := "Green", element_id := some "g13" }]]

/-- A record whose family has no piece labelled with the minimal `1X1`
footprint (`BRICK 2X2` is the unique BRICK piece). -/
def c4_data : List RawBrick :=
  [{ element_id := "a", brick_type := "BRICK 2X2", num_colors := 1,
     colors := [{ color_name := "Red", element_id := some "r1" }] },
   { element_id := "b", brick_type := "PLATE 1X1", num_colors := 1,
     colors := [{ color_name := "Red", element_id := some "r2" }] }]

/-- Catalog with reference units for both families, used to exercise the
palette derivation. -/
def uni_data : List RawBrick :=
  [{ element_id := "a", brick_type := "BRICK 1X1", num_colors := 2,
     colors := [{ color_name := "Red", element_id := some "r" },
                { color_name := "Blue", element_id := some "bl" }] },
   { element_id := "c", brick_type := "PLATE 1X1", num_colors := 1,
     colors := [{ color_name := "Red", element_id := some "r2" }] }]

/-- Catalog for the augmentation witnesses: the area-1 BRICK carries Red at
price 0.10, the area-8 BRICK has no colors of its own. -/
def red_data : List RawBrick :=
  [{ element_id := "a", brick_type := "BRICK 1X1", num_colors := 1,
     colors := [{ color_name := "Red", element_id := some "r1", rgb := some "#B40000",
                  price := some ⟨10, 2⟩ }] },
   { element_id := "b", brick_type := "BRICK 2X4", num_colors := 0, colors := [] }]

/-! ## Claim C9: parsing of piece-type labels -/

/-- Claim C9 counterexample: the claim says parsing fails whenever the label
does not split into exactly two whitespace tokens, but the source ignores
surplus tokens: `"BRICK 2X4 JUNK"` has three tokens and still parses. -/
theorem C9_counterexample :
    parse_brick_type "BRICK 2X4 JUNK" = some ("BRICK", 2, 4) ∧
    (py_split_whitespace "BRICK 2X4 JUNK").length ≠ 2 := by
  decide

/-- Claim C9 (amended): parsing a label fails exactly when there are fewer
than two whitespace tokens, or the second token has fewer than two `X`-parts,
or the first or second `X`-part is not integer-parseable; surplus whitespace
tokens and surplus `X`-parts are ignored.  On success the result is the first
token together with the first two parsed `X`-parts, and the area is their
product. -/
theorem C9_parse_label_failure (s : String) :
    (parse_brick_type s = none ↔
      (py_split_whitespace s).length < 2 ∨
      ∃ f dims rest, py_split_whitespace s = f :: dims :: rest ∧
        ((py_split_char dims 'X').length < 2 ∨
         ∃ d0 d1 r2, py_split_char dims 'X' = d0 :: d1 :: r2 ∧
           (py_int? d0 = none ∨ py_int? d1 = none))) ∧
    (∀ f w l, parse_brick_type s = some (f, w, l) →
      ∃ dims rest, py_split_whitespace s = f :: dims :: rest ∧
        ∃ d0 d1 rest2, py_split_char dims 'X' = d0 :: d1 :: rest2 ∧
          py_int? d0 = some w ∧ py_int? d1 = some l ∧
          calculate_size w l = w * l) := by
  constructor
  · rw [parse_brick_type]
    split
    next h1 => simp [h1]
    next x h1 => simp [h1]
    next f dims rest h1 =>
      split
      next h2 =>
        simp [h1]
        exact Or.inr ⟨f, dims, ⟨rfl, rfl⟩, Or.inl (by simp [h2])⟩
      next d h2 =>
        simp [h1]
        exact Or.inr ⟨f, dims, ⟨rfl, rfl⟩, Or.inl (by simp [h2])⟩
      next d0 d1 r h2 =>
        split
        next w l h3 h4 => simp [h1, h2, h3, h4]
        next hno =>
          cases hx : py_int? d0 with
          | none =>
            simp [h1]
            exact Or.inr ⟨f, dims, ⟨rfl, rfl⟩, Or.inr ⟨d0, d1, ⟨r, h2⟩, Or.inl hx⟩⟩
          | some w =>
            cases hy : py_int? d1 with
            | none =>
              simp [h1]
              exact Or.inr ⟨f, dims, ⟨rfl, rfl⟩, Or.inr ⟨d0, d1, ⟨r, h2⟩, Or.inr hy⟩⟩
            | some l => exact (hno w l hx hy).elim
  · intro f w l h
    rw [parse_brick_type] at h
    split at h
    next => exact Option.noConfusion h
    next => exact Option.noConfusion h
    next f0 dims rest h1 =>
      split at h
      next => exact Option.noConfusion h
      next => exact Option.noConfusion h
      next d0 d1 r h2 =>
        split at h
        next w0 l0 h3 h4 =>
          simp only [Option.some.injEq, Prod.mk.injEq] at h
          obtain ⟨hf, hw, hl⟩ := h
          subst hf; subst hw; subst hl
          exact ⟨dims, rest, h1, d0, d1, r, h2, h3, h4, rfl⟩
        next => exact Option.noConfusion h

/-- Claim C9 witness: the characterization applied to the well-formed label
`"BRICK 2X4"`. -/
theorem C9_witness :
    ∃ dims rest, py_split_whitespace "BRICK 2X4" = "BRICK" :: dims :: rest ∧
      ∃ d0 d1 rest2, py_split_char dims 'X' = d0 :: d1 :: rest2 ∧
        py_int? d0 = some 2 ∧ py_int? d1 = some 4 ∧
        calculate_size 2 4 = 2 * 4 :=
  (C9_parse_label_failure "BRICK 2X4").2 "BRICK" 2 4 (by decide)

/-! ## Claim C6: palette filtering is idempotent -/

/-- Claim C6: filtering the already-filtered universal catalog by the same
universal palette changes nothing — keeping only palette colors, dropping
colorless records and recomputing `num_colors` is idempotent. -/
theorem C6_filter_idempotent (data : List RawBrick) (u : List String)
    (out : List RawBrick)
    (h : create_universal_palette data = some (u, out)) :
    filter_catalog u out = out := by
  rw [create_universal_palette] at h
  split at h
  next b p hb hp =>
    simp only [Option.some.injEq, Prod.mk.injEq] at h
    obtain ⟨hu, hout⟩ := h
    subst hu
    subst hout
    exact filter_catalog_idem _ _
  next => exact Option.noConfusion h

/-- Claim C6 witness: the idempotence applied to the concrete two-family
catalog, whose universal palette is `["Red"]`. -/
theorem C6_witness :
    filter_catalog ["Red"]
      (filter_catalog ["Red"] uni_data) = filter_catalog ["Red"] uni_data :=
  C6_filter_idempotent uni_data ["Red"] (filter_catalog ["Red"] uni_data) (by decide)

/-! ## Claim C4: universal palette derivation -/

/-- Claim C4 counterexample: in this catalog every family has exactly one
piece (hence a unique minimal-area piece with positive dimensions), so the
claim says palette derivation must succeed with the intersection of the two
minimal pieces' direct colors, yet the source fails: it looks only for the
hard-coded labels `BRICK 1X1` and `PLATE 1X1`, and there is no piece
labelled `BRICK 1X1`. -/
theorem C4_counterexample :
    (∀ p ∈ c4_data, ∀ q ∈ c4_data, family_of p = family_of q → p = q) ∧
    ((c4_data.map fun p => parse_brick_type p.brick_type) =
      [some ("BRICK", 2, 2), some ("PLATE", 1, 1)]) ∧
    create_universal_palette c4_data = none := by
  decide

/-- Claim C4 (amended): the palette deriver uses the pieces labelled exactly
`BRICK 1X1` and `PLATE 1X1` (last occurrence each) as reference units; it
fails exactly when either label is absent, regardless of which minimal-area
pieces exist, and on success the universal palette is the intersection of the
two reference units' direct (non-substitute) color-name sets and the output
is the catalog filtered by that palette. -/
theorem C4_reference_units (data : List RawBrick) :
    (create_universal_palette data = none ↔
      find_labeled data "BRICK 1X1" = none ∨ find_labeled data "PLATE 1X1" = none) ∧
    (∀ b p, find_labeled data "BRICK 1X1" = some b →
      find_labeled data "PLATE 1X1" = some p →
      ∃ u, create_universal_palette data = some (u, filter_catalog u data) ∧
        ∀ n, n ∈ u ↔ n ∈ direct_color_names b ∧ n ∈ direct_color_names p) := by
  constructor
  · constructor
    · intro h
      cases hb : find_labeled data "BRICK 1X1" with
      | none => exact Or.inl rfl
      | some b =>
        cases hp : find_labeled data "PLATE 1X1" with
        | none => exact Or.inr rfl
        | some p =>
          rw [create_upal_some data b p hb hp] at h
          exact Option.noConfusion h
    · exact create_upal_none data
  · intro b p hb hp
    refine ⟨(direct_color_names b).filter (fun n => (direct_color_names p).contains n),
      create_upal_some data b p hb hp, ?_⟩
    intro n
    rw [List.mem_filter, contains_iff_mem]

/-- Claim C4 witness: on the catalog holding both reference units, the
derivation succeeds and the palette is the intersection of their direct
color names. -/
theorem C4_witness :
    ∃ u, create_universal_palette uni_data = some (u, filter_catalog u uni_data) ∧
      ∀ n, n ∈ u ↔ n ∈ direct_color_names (uni_data.get ⟨0, by decide⟩) ∧
        n ∈ direct_color_names (uni_data.get ⟨1, by decide⟩) :=
  (C4_reference_units uni_data).2 (uni_data.get ⟨0, by decide⟩)
    (uni_data.get ⟨1, by decide⟩) (by decide) (by decide)

theorem direct_names_mem (q : RawBrick) (n : String) :
    n ∈ direct_color_names q ↔
      ∃ c ∈ q.colors, c.is_substitute = false ∧ c.color_name = n := by
  constructor
  · intro h
    rw [direct_color_names, List.mem_map] at h
    obtain ⟨c, hc, hname⟩ := h
    rw [List.mem_filter] at hc
    exact ⟨c, hc.1, by simpa using hc.2, hname⟩
  · rintro ⟨c, hc, hdir, hname⟩
    rw [direct_color_names, List.mem_map]
    refine ⟨c, ?_, hname⟩
    rw [List.mem_filter]
    exact ⟨hc, by rw [hdir]; rfl⟩

/-! ## Claim C7: reference-unit colors after filtering equal the palette -/

/-- Claim C7: after filtering to the universal palette, the direct color-name
set of each reference unit (the `BRICK 1X1` and `PLATE 1X1` records) equals
the universal palette exactly, both on the filtered color lists and on the
records as they appear in the filtered catalog. -/
theorem C7_filtered_reference_colors (data : List RawBrick) (u : List String)
    (out : List RawBrick) (b p : RawBrick)
    (hcreate : create_universal_palette data = some (u, out))
    (hb : find_labeled data "BRICK 1X1" = some b)
    (hp : find_labeled data "PLATE 1X1" = some p) :
    (∀ n, n ∈ ((b.colors.filter fun c => u.contains c.color_name).filter
        fun c => !c.is_substitute).map (fun c => c.color_name) ↔ n ∈ u) ∧
    (∀ n, n ∈ ((p.colors.filter fun c => u.contains c.color_name).filter
        fun c => !c.is_substitute).map (fun c => c.color_name) ↔ n ∈ u) ∧
    (u ≠ [] → ∃ b2 ∈ out, b2.brick_type = b.brick_type ∧
      ∀ n, n ∈ direct_color_names b2 ↔ n ∈ u) ∧
    (u ≠ [] → ∃ p2 ∈ out, p2.brick_type = p.brick_type ∧
      ∀ n, n ∈ direct_color_names p2 ↔ n ∈ u) := by
  rw [create_upal_some data b p hb hp] at hcreate
  simp only [Option.some.injEq, Prod.mk.injEq] at hcreate
  obtain ⟨hu, hout⟩ := hcreate
  have hu_mem : ∀ n, n ∈ u ↔ n ∈ direct_color_names b ∧ n ∈ direct_color_names p := by
    intro n
    rw [← hu, List.mem_filter, contains_iff_mem]
  have key : ∀ q : RawBrick, (∀ n, n ∈ u → n ∈ direct_color_names q) →
      ∀ n, n ∈ ((q.colors.filter fun c => u.contains c.color_name).filter
        fun c => !c.is_substitute).map (fun c => c.color_name) ↔ n ∈ u := by
    intro q hsub n
    constructor
    · intro hn
      rw [List.mem_map] at hn
      obtain ⟨c, hc, hname⟩ := hn
      rw [List.mem_filter] at hc
      obtain ⟨hc1, _⟩ := hc
      rw [List.mem_filter] at hc1
      rw [← hname]
      exact (contains_iff_mem u c.color_name).mp hc1.2
    · intro hn
      obtain ⟨c, hc, hdir, hname⟩ := (direct_names_mem q n).mp (hsub n hn)
      rw [List.mem_map]
      refine ⟨c, ?_, hname⟩
      rw [List.mem_filter]
      refine ⟨?_, by rw [hdir]; rfl⟩
      rw [List.mem_filter]
      refine ⟨hc, ?_⟩
      rw [hname]
      exact (contains_iff_mem u n).mpr hn
  have hbsub : ∀ n, n ∈ u → n ∈ direct_color_names b :=
    fun n hn => ((hu_mem n).mp hn).1
  have hpsub : ∀ n, n ∈ u → n ∈ direct_color_names p :=
    fun n hn => ((hu_mem n).mp hn).2
  have key2 : ∀ q : RawBrick, q ∈ data →
      (∀ n, n ∈ u → n ∈ direct_color_names q) → u ≠ [] →
      ∃ q2 ∈ out, q2.brick_type = q.brick_type ∧
        ∀ n, n ∈ direct_color_names q2 ↔ n ∈ u := by
    intro q hqdata hsub hune
    obtain ⟨n0, hn0⟩ := List.exists_mem_of_ne_nil u hune
    obtain ⟨c0, hc0, hdir0, hname0⟩ := (direct_names_mem q n0).mp (hsub n0 hn0)
    have hc0fc : c0 ∈ q.colors.filter fun c => u.contains c.color_name := by
      rw [List.mem_filter]
      refine ⟨hc0, ?_⟩
      rw [hname0]
      exact (contains_iff_mem u n0).mpr hn0
    have hne : (q.colors.filter fun c => u.contains c.color_name).isEmpty = false := by
      cases hfc : q.colors.filter fun c => u.contains c.color_name with
      | nil => rw [hfc] at hc0fc; exact absurd hc0fc (List.not_mem_nil _)
      | cons _ _ => rfl
    have hfp : filter_piece u q = some
        { element_id := q.element_id, brick_type := q.brick_type,
          num_colors := (q.colors.filter fun c => u.contains c.color_name).length,
          colors := q.colors.filter fun c => u.contains c.color_name } := by
      simp only [filter_piece]
      rw [hne]
      rfl
    refine ⟨{ element_id := q.element_id, brick_type := q.brick_type,
              num_colors := (q.colors.filter fun c => u.contains c.color_name).length,
              colors := q.colors.filter fun c => u.contains c.color_name },
            ?_, rfl, ?_⟩
    · rw [← hout, hu, filter_catalog, List.mem_filterMap]
      exact ⟨q, hqdata, hfp⟩
    · exact key q hsub
  exact ⟨key b hbsub, key p hpsub,
    key2 b (find_labeled_spec data _ b hb).1 hbsub,
    key2 p (find_labeled_spec data _ p hp).1 hpsub⟩

/-- Claim C7 witness: the consistency property applied to the concrete
two-family catalog with palette `["Red"]`. -/
theorem C7_witness :
    (∀ n, n ∈ (((uni_data.get ⟨0, by decide⟩).colors.filter
        fun c => (["Red"] : List String).contains c.color_name).filter
        fun c => !c.is_substitute).map (fun c => c.color_name) ↔
        n ∈ (["Red"] : List String)) ∧
    (∀ n, n ∈ (((uni_data.get ⟨1, by decide⟩).colors.filter
        fun c => (["Red"] : List String).contains c.color_name).filter
        fun c => !c.is_substitute).map (fun c => c.color_name) ↔
        n ∈ (["Red"] : List String)) ∧
    ((["Red"] : List String) ≠ [] →
      ∃ b2 ∈ filter_catalog ["Red"] uni_data,
        b2.brick_type = (uni_data.get ⟨0, by decide⟩).brick_type ∧
        ∀ n, n ∈ direct_color_names b2 ↔ n ∈ (["Red"] : List String)) ∧
    ((["Red"] : List String) ≠ [] →
      ∃ p2 ∈ filter_catalog ["Red"] uni_data,
        p2.brick_type = (uni_data.get ⟨1, by decide⟩).brick_type ∧
        ∀ n, n ∈ direct_color_names p2 ↔ n ∈ (["Red"] : List String)) :=
  C7_filtered_reference_colors uni_data ["Red"] (filter_catalog ["Red"] uni_data)
    (uni_data.get ⟨0, by decide⟩) (uni_data.get ⟨1, by decide⟩)
    (by decide) (by decide) (by decide)

/-! ## Claim C2: the synthesizer equals the reference greedy algorithm -/

/-- Claim C2: on a pool of strictly smaller positive-area pieces the
synthesizer computes exactly the reference greedy algorithm of the spec
(stable descending sort, floor-division counts, stop at zero, unit
fallback); in particular target area 6 with pool areas 4, 2, 1 carrying Blue
yields exactly two entries, one area-4 piece and one area-2 piece. -/
theorem C2_greedy_reference :
    (∀ (W L : Int) (pool : List BrickInfo) (cname : String),
      1 ≤ W → 1 ≤ L → (∀ q ∈ pool, 0 < q.size ∧ q.size < W * L) →
      find_efficient_substitute W L pool cname = spec_greedy W L pool cname) ∧
    find_efficient_substitute 2 3 blue_pool "Blue" =
      some [{ brick_type := "BRICK 2X2", element_id := some "e22", quantity := 1 },
            { brick_type := "BRICK 1X2", element_id := some "e12", quantity := 1 }] :=
  ⟨fun W L pool cname hW hL hpool =>
    find_eq_spec_greedy W L pool cname hW hL hpool, by decide⟩

/-- Claim C2 witness: the equality applied to the spec's concrete example
pool (target 2 by 3, areas 4, 2, 1 carrying Blue). -/
theorem C2_witness :
    find_efficient_substitute 2 3 blue_pool "Blue" =
      spec_greedy 2 3 blue_pool "Blue" :=
  C2_greedy_reference.1 2 3 blue_pool "Blue" (by decide) (by decide) (by decide)

/-! ## Claim C10: a unit piece in the pool makes failure unreachable -/

/-- Claim C10: when the candidate pool consists of strictly smaller
same-family pieces carrying the requested color, all with positive dimensions
and consistent labels, and some pool piece has area 1, the synthesizer always
succeeds and its composition covers the target area exactly. -/
theorem C10_unit_piece_no_failure (W L : Int) (pool : List BrickInfo)
    (cname : String) (hW : 1 ≤ W) (hL : 1 ≤ L)
    (hpool : ∀ q ∈ pool, 0 < q.width ∧ 0 < q.length ∧ q.size = q.width * q.length ∧
      q.size < W * L ∧ label_area q.brick_type = q.size ∧
      (q.colors_data.find? fun c => c.color_name == cname).isSome)
    (hunit : ∃ u ∈ pool, u.size = 1) :
    ∃ subs, find_efficient_substitute W L pool cname = some subs ∧
      subs_area subs = W * L := by
  obtain ⟨u, hu, hu1⟩ := hunit
  have hpos : ∀ q ∈ pool, 0 < q.size := by
    intro q hq
    obtain ⟨hw, hl, hsz, _⟩ := hpool q hq
    rw [hsz]
    exact mul_pos hw hl
  have hsmall : ∀ q ∈ pool, q.size < W * L := fun q hq => (hpool q hq).2.2.2.1
  have hlab : ∀ q ∈ pool, label_area q.brick_type = q.size :=
    fun q hq => (hpool q hq).2.2.2.2.1
  obtain ⟨cd, hcd⟩ := Option.isSome_iff_exists.mp (hpool u hu).2.2.2.2.2
  obtain ⟨subs, hfind⟩ := find_success_with_unit W L pool cname hpos hsmall
    (mul_nonneg (by omega) (by omega)) u hu hu1 cd hcd
  exact ⟨subs, hfind, find_area W L pool cname hlab subs hfind⟩

/-- Claim C10 witness: the pool with areas 1, 2, 4 carrying Blue always
covers the 2 by 4 target exactly. -/
theorem C10_witness :
    ∃ subs, find_efficient_substitute 2 4 blue_pool "Blue" = some subs ∧
      subs_area subs = 2 * 4 :=
  C10_unit_piece_no_failure 2 4 blue_pool "Blue" (by decide) (by decide)
    (by decide) (by decide)

/-! ## Claim C3: failure modes of the synthesizer -/

/-- Claim C3 (amended): with the two `return None` sites labelled,
`NoCandidate` is returned exactly when no pool piece has area strictly below
the target area together with a direct variant of the color (the
width/length fit is NOT part of candidate building — it is checked during
the greedy pass), and `Unfillable` exactly when candidates exist but the
greedy pass plus unit fallback leave area uncovered; a color whose synthesis
fails is omitted from the augmented record (present only if it was a direct
color), and synthesis failures never make the run itself fail.  The spec's
example, target area 5 against pool areas 4 and 2 with no unit piece, fails
with `Unfillable`. -/
theorem C3_failure_modes :
    (∀ (W L : Int) (pool : List BrickInfo) (cname : String),
      (find_efficient_substitute_err W L pool cname = .error .NoCandidate ↔
        build_candidates W L pool cname = []) ∧
      (find_efficient_substitute_err W L pool cname = .error .Unfillable ↔
        build_candidates W L pool cname ≠ [] ∧
        find_efficient_substitute W L pool cname = none) ∧
      (find_efficient_substitute_err W L pool cname).toOption
        = find_efficient_substitute W L pool cname) ∧
    (∀ (fs : List BrickInfo) (bi : BrickInfo) (cname : String),
      find_efficient_substitute bi.width bi.length
        (fs.filter fun b => b.size < bi.size) cname = none →
      (cname ∈ (augment_one fs bi).colors.map (fun c => c.color_name) ↔
        cname ∈ bi.colors_data.map fun c => c.color_name)) ∧
    (∀ data : List RawBrick,
      (generate_with_substitutes data).isSome = (parsed_infos data).isSome) ∧
    find_efficient_substitute_err 1 5 green_pool "Green" = .error .Unfillable := by
  refine ⟨?_, augment_omit, generate_isSome, by decide⟩
  intro W L pool cname
  refine ⟨⟨?_, ?_⟩, ⟨?_, ?_⟩, ?_⟩
  · intro h
    rw [find_efficient_substitute_err] at h
    split at h
    next heq => exact heq
    next c0 cs heq =>
      split at h
      next subs hf2 => exact Except.noConfusion h
      next hf2 =>
        injection h with h2
        exact SynthErr.noConfusion h2
  · intro h
    rw [find_efficient_substitute_err, h]
  · intro h
    rw [find_efficient_substitute_err] at h
    split at h
    next heq =>
      injection h with h2
      exact SynthErr.noConfusion h2
    next c0 cs heq =>
      split at h
      next subs hf2 => exact Except.noConfusion h
      next hf2 =>
        refine ⟨?_, hf2⟩
        rw [heq]
        exact List.cons_ne_nil _ _
  · rintro ⟨hne, hnone⟩
    rw [find_efficient_substitute_err]
    split
    next heq => exact absurd heq hne
    next c0 cs heq =>
      split
      next subs hf2 =>
        rw [hnone] at hf2
        exact Option.noConfusion hf2
      next => rfl
  · rw [find_efficient_substitute_err]
    split
    next heq =>
      rw [find_efficient_substitute, heq]
      rfl
    next c0 cs heq =>
      split
      next subs hf2 => rw [hf2]; rfl
      next hf2 => rw [hf2]; rfl

/-- Claim C3 witness: a failing color is omitted — synthesizing Green for a
1 by 5 target over the pool with areas 2 and 4 fails, and Green then appears
on the augmented record only if it was a direct color (here: not at all). -/
theorem C3_witness :
    "Green" ∈ (augment_one green_pool
        (mk_info "BRICK 1X5" "BRICK" 1 5 [])).colors.map (fun c => c.color_name) ↔
      "Green" ∈ (mk_info "BRICK 1X5" "BRICK" 1 5 []).colors_data.map
        fun c => c.color_name :=
  C3_failure_modes.2.1 green_pool (mk_info "BRICK 1X5" "BRICK" 1 5 []) "Green"
    (by decide)

theorem generate_sub_variant (data : List RawBrick) (parsed : List BrickInfo)
    (out : List RawBrick) (b : RawBrick) (v : ColorData)
    (hdir : ∀ rb ∈ data, ∀ c ∈ rb.colors, c.is_substitute = false)
    (hpi : parsed_infos data = some parsed)
    (hgen : generate_with_substitutes data = some out)
    (hb : b ∈ out) (hv : v ∈ b.colors) (hsub : v.is_substitute = true) :
    ∃ bi ∈ parsed, b = augment_one (sorted_family parsed bi.type_name) bi ∧
      parse_brick_type b.brick_type = some (bi.type_name, bi.width, bi.length) ∧
      bi.size = bi.width * bi.length ∧
      (∀ p ∈ smaller_pool parsed bi, label_area p.brick_type = p.size) ∧
      ∃ subs, find_efficient_substitute bi.width bi.length (smaller_pool parsed bi)
          v.color_name = some subs ∧
        v = subst_color_entry (smaller_pool parsed bi) v.color_name subs := by
  have hgen2 := generate_some data parsed hpi
  rw [hgen] at hgen2
  have hout := Option.some.inj hgen2
  subst hout
  rw [List.mem_map] at hb
  obtain ⟨bi, hbi, hbeq⟩ := hb
  obtain ⟨rb, hrb, hpti⟩ := parsed_infos_mem data parsed hpi bi hbi
  obtain ⟨hparse, hbt, hsz, hcols, _, _⟩ := parse_to_info_props rb bi hpti
  have hdirect : ∀ c ∈ bi.colors_data, c.is_substitute = false := by
    rw [hcols]
    exact hdir rb hrb
  subst hbeq
  obtain ⟨cname, subs, hfind, hveq⟩ :=
    augment_colors_mem (sorted_family parsed bi.type_name) bi v hdirect hv hsub
  have hcname : v.color_name = cname := by rw [hveq]; rfl
  have hlab : ∀ p ∈ smaller_pool parsed bi, label_area p.brick_type = p.size := by
    intro p hp
    obtain ⟨rb2, hrb2, hpti2⟩ :=
      parsed_infos_mem data parsed hpi p (smaller_pool_mem parsed bi p hp).1
    exact parse_to_info_label rb2 p hpti2
  refine ⟨bi, hbi, rfl, ?_, hsz, hlab, subs, ?_, ?_⟩
  · show parse_brick_type bi.brick_type = _
    rw [hbt]
    exact hparse
  · rw [hcname]
    exact hfind
  · rw [hcname]
    exact hveq

/-! ## Claim C1: substitute compositions cover the owner's area exactly -/

/-- Claim C1: starting from a direct-only catalog, every substitute color
variant of the augmented catalog satisfies the area invariant: the sum over
its substitute entries of the referenced piece's area times its quantity
equals the owning piece's own area, read off its label. -/
theorem C1_substitute_area_invariant (data out : List RawBrick)
    (hdir : ∀ rb ∈ data, ∀ c ∈ rb.colors, c.is_substitute = false)
    (hgen : generate_with_substitutes data = some out) :
    ∀ b ∈ out, ∀ v ∈ b.colors, v.is_substitute = true →
    ∃ fam w l, parse_brick_type b.brick_type = some (fam, w, l) ∧
      subs_area v.substitutes = w * l := by
  intro b hb v hv hsub
  cases hpi : parsed_infos data with
  | none =>
    rw [generate_with_substitutes, hpi] at hgen
    exact Option.noConfusion hgen
  | some parsed =>
    obtain ⟨bi, hbi, hbeq, hparse, hsz, hlab, subs, hfind, hveq⟩ :=
      generate_sub_variant data parsed out b v hdir hpi hgen hb hv hsub
    refine ⟨bi.type_name, bi.width, bi.length, hparse, ?_⟩
    have hvsub : v.substitutes = subs := by rw [hveq]; rfl
    rw [hvsub]
    exact find_area bi.width bi.length (smaller_pool parsed bi) v.color_name
      hlab subs hfind

/-! ## Claim C5: substitute prices -/

/-- Claim C5: every substitute color variant of the augmented catalog has
price equal to the sum, over its substitute entries, of the contributing
piece's direct variant price for that color (a missing price counts as 0)
times the entry quantity, rounded to two decimal places. -/
theorem C5_substitute_price (data : List RawBrick) (parsed : List BrickInfo)
    (out : List RawBrick)
    (hdir : ∀ rb ∈ data, ∀ c ∈ rb.colors, c.is_substitute = false)
    (hpi : parsed_infos data = some parsed)
    (hgen : generate_with_substitutes data = some out) :
    ∀ b ∈ out, ∀ v ∈ b.colors, v.is_substitute = true →
    ∃ bi ∈ parsed, bi.brick_type = b.brick_type ∧
      v.price = some (total_price (smaller_pool parsed bi) v.color_name
        v.substitutes).round2 := by
  intro b hb v hv hsub
  obtain ⟨bi, hbi, hbeq, _, _, _, subs, hfind, hveq⟩ :=
    generate_sub_variant data parsed out b v hdir hpi hgen hb hv hsub
  refine ⟨bi, hbi, ?_, ?_⟩
  · rw [hbeq]; rfl
  · rw [hveq]; rfl

/-! ## Claim C8: the rgb sample of a substitute variant -/

/-- Claim C8: the rgb sample of every substitute color variant equals the
rgb of that color on the first piece, in the family's ascending-area order,
among the strictly smaller same-family pieces that carry the color directly —
independent of the pieces in the composition. -/
theorem C8_substitute_rgb (data : List RawBrick) (parsed : List BrickInfo)
    (out : List RawBrick)
    (hdir : ∀ rb ∈ data, ∀ c ∈ rb.colors, c.is_substitute = false)
    (hpi : parsed_infos data = some parsed)
    (hgen : generate_with_substitutes data = some out) :
    ∀ b ∈ out, ∀ v ∈ b.colors, v.is_substitute = true →
    ∃ bi ∈ parsed, bi.brick_type = b.brick_type ∧
      ∀ (pre : List BrickInfo) (s : BrickInfo) (post : List BrickInfo)
        (cd : ColorData),
        smaller_pool parsed bi = pre ++ s :: post →
        (∀ q ∈ pre, q.colors_data.find?
          (fun c => c.color_name == v.color_name) = none) →
        s.colors_data.find? (fun c => c.color_name == v.color_name) = some cd →
        v.rgb = cd.rgb := by
  intro b hb v hv hsub
  obtain ⟨bi, hbi, hbeq, _, _, _, subs, hfind, hveq⟩ :=
    generate_sub_variant data parsed out b v hdir hpi hgen hb hv hsub
  refine ⟨bi, hbi, by rw [hbeq]; rfl, ?_⟩
  intro pre s post cd hsplit hpre hs
  have hrgb : v.rgb = rgb_lookup (smaller_pool parsed bi) v.color_name := by
    rw [hveq]
    rfl
  rw [hrgb, hsplit]
  exact rgb_lookup_split v.color_name pre s post cd hpre hs

/-- The direct Red variant of the area-1 BRICK in `red_data`. -/
def red_direct : ColorData :=
  { color_name := "Red", element_id := some "r1", rgb := some "#B40000",
    price := some ⟨10, 2⟩ }

/-- The substitute Red variant the augmenter synthesizes for the area-8
BRICK: eight area-1 pieces, price 0.80. -/
def red_sub_color : ColorData :=
  { color_name := "Red", element_id := none, rgb := some "#B40000",
    price := some ⟨80, 2⟩, is_substitute := true,
    substitutes := [{ brick_type := "BRICK 1X1", element_id := some "r1",
                      quantity := 8 }] }

/-- The parsed records of `red_data`. -/
def red_parsed : List BrickInfo :=
  [{ element_id := "a", brick_type := "BRICK 1X1", type_name := "BRICK",
     width := 1, length := 1, size := 1, colors_data := [red_direct],
     num_colors := 1 },
   { element_id := "b", brick_type := "BRICK 2X4", type_name := "BRICK",
     width := 2, length := 4, size := 8, colors_data := [], num_colors := 0 }]

/-- The augmented area-8 BRICK record. -/
def red_out_brick : RawBrick :=
  { element_id := "b", brick_type := "BRICK 2X4", num_colors := 1,
    colors := [red_sub_color] }

/-- The augmented catalog produced from `red_data`. -/
def red_out : List RawBrick :=
  [{ element_id := "a", brick_type := "BRICK 1X1", num_colors := 1,
     colors := [red_direct] },
   red_out_brick]

/-- Claim C1 witness: the area invariant on the concrete augmented catalog —
eight area-1 entries cover the 2 by 4 footprint exactly. -/
theorem C1_witness :
    ∃ fam w l, parse_brick_type red_out_brick.brick_type = some (fam, w, l) ∧
      subs_area red_sub_color.substitutes = w * l :=
  C1_substitute_area_invariant red_data red_out (by decide) (by decide)
    red_out_brick (by decide) red_sub_color (by decide) (by decide)

/-- Claim C5 witness: the price formula on the concrete augmented catalog,
together with the concrete value — eight pieces at 0.10 give 0.80. -/
theorem C5_witness :
    (∃ bi ∈ red_parsed, bi.brick_type = red_out_brick.brick_type ∧
      red_sub_color.price = some (total_price (smaller_pool red_parsed bi)
        red_sub_color.color_name red_sub_color.substitutes).round2) ∧
    red_sub_color.price = some ⟨80, 2⟩ :=
  ⟨C5_substitute_price red_data red_parsed red_out (by decide) (by decide)
    (by decide) red_out_brick (by decide) red_sub_color (by decide) (by decide),
   by decide⟩

/-- Claim C8 witness: the rgb rule on the concrete augmented catalog. -/
theorem C8_witness :
    ∃ bi ∈ red_parsed, bi.brick_type = red_out_brick.brick_type ∧
      ∀ (pre : List BrickInfo) (s : BrickInfo) (post : List BrickInfo)
        (cd : ColorData),
        smaller_pool red_parsed bi = pre ++ s :: post →
        (∀ q ∈ pre, q.colors_data.find?
          (fun c => c.color_name == red_sub_color.color_name) = none) →
        s.colors_data.find?
          (fun c => c.color_name == red_sub_color.color_name) = some cd →
        red_sub_color.rgb = cd.rgb :=
  C8_substitute_rgb red_data red_parsed red_out (by decide) (by decide)
    (by decide) red_out_brick (by decide) red_sub_color (by decide) (by decide)

/-- Claim C3 counterexample: for a 2 by 2 target and a pool holding only a
1 by 3 piece carrying Green, no pool piece fits the footprint, so the claim
says the synthesizer fails with `NoCandidate`; but the source filters
candidates by area only (3 < 4), finds a candidate, and fails on the
fall-through path labelled `Unfillable` instead. -/
theorem C3_counterexample :
    find_efficient_substitute_err 2 2 tall_pool "Green" = .error .Unfillable ∧
    (∀ q ∈ tall_pool, ¬(q.width ≤ 2 ∧ q.length ≤ 2 ∧
      (q.colors_data.find? fun c => c.color_name == "Green").isSome)) := by
  decide
